import Mathlib

/-!
Verification of the elementpath XPath engine excerpt: shallow embeddings of
the numeric operators, the node-tree builder, the dynamic context with its
axis iterators, and the parser's static-check phase, together with theorems
settling the specified properties.

Source files embedded here:
- elementpath/xpath2/_xpath2_operators.py (idiv, value/node comparisons,
  intersect/except, the for expression)
- elementpath/helpers.py (numeric_equal / numeric_not_equal)
- elementpath/tree_builders.py (build_node_tree)
- elementpath/xpath_context.py (XPathContext: __copy__, inner_focus_select,
  iter_product and the axis iterators)
- elementpath/xpath1/xpath1_parser.py (XPath1Parser.parse)
-/

/-- Coded errors raised by the embedded fragments, plus the dedicated
MissingContextError class used by the parser's static-check phase. -/
inductive XPathErr where
  | FOAR0001
  | FOAR0002
  | FOCA0002
  | FOTY0013
  | XPST0003
  | XPST0005
  | XPTY0004
  | missingContext
deriving DecidableEq, Repr

/-! ## Numeric model for the idiv operator (_xpath2_operators.py 688-715)

Operands reaching evaluate_idiv_operator are Python numbers.  The claim
quantifies over integer-valued operands, so finite values are modelled as
integers, with a flag distinguishing decimal.Decimal (whose floor division
truncates toward zero, unlike int's and float's, which floor) and with the
special float values as extra constructors. -/

inductive XNum where
  | int (n : Int)
  | dec (n : Int)
  | posInf
  | negInf
  | nan
deriving DecidableEq, Repr

/-- Python math.isinf on the numeric model. -/
def xnumIsInf : XNum → Bool
  | .posInf => true
  | .negInf => true
  | _ => false

/-- Python math.isnan on the numeric model. -/
def xnumIsNan : XNum → Bool
  | .nan => true
  | _ => false

/-- Python equality comparison with the literal 0 (op2 == 0). -/
def xnumIsZero : XNum → Bool
  | .int 0 => true
  | .dec 0 => true
  | _ => false

/-- Finite value and Decimal flag of an operand, none for inf and NaN. -/
def xnumFin : XNum → Option (Int × Bool)
  | .int n => some (n, false)
  | .dec n => some (n, true)
  | _ => none

/-- Shallow embedding of evaluate_idiv_operator (_xpath2_operators.py
688-715).  An infinite dividend raises FOAR0001 when the divisor equals 0
and FOAR0002 otherwise, a NaN operand raises FOAR0002, a zero divisor
raises FOAR0001 via ZeroDivisionError.  Otherwise result = op1 // op2
(floor division for int operands, truncating division when a Decimal is
involved), and the final branch returns int(result) when result >= 0 or a
Decimal operand is present or abs(op1) == abs(op2), else int(result) + 1.
With an infinite divisor and a finite dividend Python float floor division
yields 0 or -1 according to the signs. -/
def evaluate_idiv_operator (op1 op2 : XNum) : Except XPathErr Int :=
  if xnumIsInf op1 then
    .error (if xnumIsZero op2 then .FOAR0001 else .FOAR0002)
  else if xnumIsNan op1 || xnumIsNan op2 then
    .error .FOAR0002
  else
    match xnumFin op1, xnumFin op2 with
    | some (a, d1), some (b, d2) =>
      if b = 0 then .error .FOAR0001
      else
        let result : Int := if d1 || d2 then Int.tdiv a b else Int.fdiv a b
        if 0 ≤ result || d1 || d2 || a.natAbs = b.natAbs then .ok result
        else .ok (result + 1)
    | some (a, d1), none =>
      let result : Int :=
        if a = 0 then 0
        else if 0 < a then (if op2 = XNum.posInf then 0 else -1)
        else (if op2 = XNum.posInf then -1 else 0)
      if 0 ≤ result || d1 then .ok result else .ok (result + 1)
    | none, _ => .error .FOAR0002

/-! ## Double value comparison (helpers.py 237-251, _xpath2_operators.py
557-611)

xs:double values are modelled as exact rationals plus the special values;
the model keeps the comparison structure of the source exactly while
replacing rounded float arithmetic by exact arithmetic. -/

inductive PyFloat where
  | fin (q : ℚ)
  | posInf
  | negInf
  | nan
deriving DecidableEq, Repr

/-- Python == on float values: NaN compares unequal to everything,
including itself. -/
def pyEqFloat : PyFloat → PyFloat → Bool
  | .fin a, .fin b => a = b
  | .posInf, .posInf => true
  | .negInf, .negInf => true
  | _, _ => false

/-- Python math.isinf on the float model. -/
def pyIsInfFloat : PyFloat → Bool
  | .posInf => true
  | .negInf => true
  | _ => false

/-- Embedding of CPython's math.isclose: equal operands are close; an
infinite operand is otherwise never close; otherwise the difference is
compared against fabs(rel_tol * b), fabs(rel_tol * a) and abs_tol.  Any
comparison with a NaN operand is false in Python, so a remaining NaN yields
false. -/
def math_isclose (relTol absTol : ℚ) (a b : PyFloat) : Bool :=
  if pyEqFloat a b then true
  else if pyIsInfFloat a || pyIsInfFloat b then false
  else
    match a, b with
    | .fin x, .fin y =>
      decide (|y - x| ≤ |relTol * y|) || decide (|y - x| ≤ |relTol * x|) ||
        decide (|y - x| ≤ absTol)
    | _, _ => false

/-- Relative tolerance 1e-7 used by helpers.numeric_equal. -/
def relTol7 : ℚ := 1 / 10 ^ 7

/-- Embedding of helpers.numeric_equal (helpers.py 237-241): equal operands
are equal, otherwise math.isclose with rel_tol=1e-7 and abs_tol=0.0. -/
def numeric_equal (op1 op2 : PyFloat) : Bool :=
  if pyEqFloat op1 op2 then true
  else math_isclose relTol7 0 op1 op2

/-- Embedding of helpers.numeric_not_equal (helpers.py 244-248). -/
def numeric_not_equal (op1 op2 : PyFloat) : Bool :=
  if pyEqFloat op1 op2 then false
  else !math_isclose relTol7 0 op1 op2

/-- Value comparison operator symbols. -/
inductive CompOp where
  | eq
  | ne
  | lt
  | gt
  | le
  | ge
deriving DecidableEq, Repr

/-- Python < on float values (false whenever a NaN is involved). -/
def pyLtFloat : PyFloat → PyFloat → Bool
  | .fin a, .fin b => a < b
  | .fin _, .posInf => true
  | .negInf, .fin _ => true
  | .negInf, .posInf => true
  | _, _ => false

/-- Python <= on float values (false whenever a NaN is involved). -/
def pyLeFloat (a b : PyFloat) : Bool := pyEqFloat a b || pyLtFloat a b

/-- Embedding of the two-xs:double branch of
evaluate_value_comparison_operators (_xpath2_operators.py 569-580): eq and
ne use the custom numeric_equal / numeric_not_equal operators; for the
other symbols, if numeric_equal holds the result is whether the symbol is
le or ge, otherwise control falls through to the generic
getattr(operator, symbol) comparison on the operands. -/
def evaluate_value_comparison (op : CompOp) (a b : PyFloat) : Bool :=
  match op with
  | .eq => numeric_equal a b
  | .ne => numeric_not_equal a b
  | _ =>
    if numeric_equal a b then decide (op = .le) || decide (op = .ge)
    else
      match op with
      | .lt => pyLtFloat a b
      | .gt => pyLtFloat b a
      | .le => pyLeFloat a b
      | _ => pyLeFloat b a

/-- Predicate written from the specification's words: the operands are
exactly equal, or equal within combined relative tolerance 1e-7 and
absolute tolerance 0 (difference at most the larger of
rel_tol * max(abs a, abs b) and abs_tol). -/
def spec_double_equal (a b : PyFloat) : Bool :=
  pyEqFloat a b ||
    match a, b with
    | .fin x, .fin y => decide (|x - y| ≤ max (relTol7 * max |x| |y|) 0)
    | _, _ => false

/-! ## Parser static-check phase (xpath1_parser.py 244-263)

The parse method dispatches on exceptions raised by token evaluation; the
token's own behaviour is abstracted as data: its label and the outcome
(no exception, or a raised error) of the two static-analysis passes. -/

structure TokenModel where
  label : String
  staticEval : Option XPathErr
  schemaSelect : Option XPathErr
deriving DecidableEq, Repr

/-- Tokens whose label survives the XPST0003 check at the top of parse. -/
def tokenLabelAllowed (t : TokenModel) : Prop :=
  t.label ≠ "sequence type" ∧ t.label ≠ "function test"

instance (t : TokenModel) : Decidable (tokenLabelAllowed t) := by
  unfold tokenLabelAllowed; infer_instance

/-- Second static pass of parse: when a schema is bound, root_token.select
over the schema context is drained with no surrounding exception handler,
so any raised error propagates. -/
def parser_parse_schema_pass (schemaBound : Bool) (t : TokenModel) :
    Except XPathErr TokenModel :=
  if schemaBound then
    match t.schemaSelect with
    | some e => .error e
    | none => .ok t
  else .ok t

/-- Embedding of XPath1Parser.parse (xpath1_parser.py 244-263): after the
core parsing, (1) sequence-type and function-test labels are rejected with
XPST0003; (2) the context-free trial evaluation runs inside a try/except
that swallows exactly MissingContextError; (3) the schema-bound second
pass runs with no exception handler. -/
def parser_parse (schemaBound : Bool) (t : TokenModel) :
    Except XPathErr TokenModel :=
  if ¬ tokenLabelAllowed t then .error .XPST0003
  else
    match t.staticEval with
    | some e =>
      if e = .missingContext then parser_parse_schema_pass schemaBound t
      else .error e
    | none => parser_parse_schema_pass schemaBound t

/-! ## Node arena and dynamic context (xpath_context.py)

The node tree is modelled as an arena of node identifiers with total
accessor functions; Python object identity between nodes is identifier
equality.  size is only a fuel bound for parent-chain walks, so that the
model stays total on arenas whose parent map is ill-founded (where the
Python loops would not terminate, and the claims about completed
iterations are vacuous). -/

inductive NodeKind where
  | document
  | element
  | attribute
  | text
  | comment
  | procInst
  | namespaceNode
deriving DecidableEq, Repr

structure Arena where
  size : Nat
  kindOf : Nat → NodeKind
  parentOf : Nat → Option Nat
  childrenOf : Nat → List Nat
  attributesOf : Nat → List Nat
  positionOf : Nat → Nat

/-- Context item: an XPath node (by identifier) or an atomic value. -/
inductive ItemT where
  | node (n : Nat)
  | atomic (v : Int)
deriving DecidableEq, Repr

/-- Mutable fields of XPathContext.  variables and namespaces are
references (indices) into a store of dictionaries, so that Python's
aliasing versus shallow-copying of the dicts is observable; root and
document are node references shared between copies. -/
structure Ctx where
  item : Option ItemT
  position : Int
  size : Int
  axis : Option String
  varsRef : Nat
  nsRef : Nat
  root : Option Nat
  document : Option Nat
deriving DecidableEq, Repr

/-- One run of an axis generator: the yielded values paired with the
context state observed at each yield (the state a consumer sees while the
generator is suspended there), and the context state after exhaustion. -/
structure IterRun where
  yields : List (ItemT × Ctx)
  final : Ctx
deriving DecidableEq, Repr

/-- Context the consumer observes when it stops pulling right after the
(i+1)-th yielded value: the generator is suspended at that yield and, as
the iterators have no try/finally, no restore statement has run. -/
def abandonedCtx (r : IterRun) (i : Nat) : Option Ctx :=
  (r.yields.get? i).map Prod.snd

/-- Common shape of the axis loops: a pre-mutated context c0, one yield per
listed node with self.item set to it, then the restore statement
self.item, self.axis = status executed on the state left by the loop. -/
def runAxisLoop (saved c0 : Ctx) (ys : List ItemT) : IterRun :=
  let trace := ys.map fun y => (y, { c0 with item := some y })
  let afterLoop :=
    match ys.getLast? with
    | some y => { c0 with item := some y }
    | none => c0
  ⟨trace, { afterLoop with item := saved.item, axis := saved.axis }⟩

/-- XPathNode.iter_descendants with with_self=True: the node followed by
the recursive descendants of its children, in document order (fuelled
recursion over the child map). -/
def descendantsFrom (A : Arena) : Nat → Nat → List Nat
  | 0, _ => []
  | fuel + 1, n => n :: (A.childrenOf n).flatMap (descendantsFrom A fuel)

/-- XPathNode.iter_descendants with the with_self flag. -/
def iterDescendantsNode (A : Arena) (withSelf : Bool) (n : Nat) : List Nat :=
  if withSelf then descendantsFrom A (A.size + 1) n
  else (A.childrenOf n).flatMap (descendantsFrom A A.size)

/-- Embedding of XPathContext.iter_self (xpath_context.py 413-419): if an
item is bound, save the axis, set it to self, yield the item, restore. -/
def iter_self (c : Ctx) : IterRun :=
  match c.item with
  | none => ⟨[], c⟩
  | some it =>
    let c1 := { c with axis := some "self" }
    ⟨[(it, c1)], { c1 with axis := c.axis }⟩

/-- Embedding of XPathContext.iter_attributes (xpath_context.py 421-438):
an attribute item is yielded back under the attribute axis (axis restored
afterwards); an element item yields each of its attribute nodes with
self.item mutated to it, then item and axis are restored. -/
def iter_attributes (A : Arena) (c : Ctx) : IterRun :=
  match c.item with
  | some (.node n) =>
    if A.kindOf n = .attribute then
      let c1 := { c with axis := some "attribute" }
      ⟨[(.node n, c1)], { c1 with axis := c.axis }⟩
    else if A.kindOf n = .element then
      runAxisLoop c { c with axis := some "attribute" }
        ((A.attributesOf n).map ItemT.node)
    else ⟨[], c⟩
  | _ => ⟨[], c⟩

/-- Embedding of XPathContext.iter_children_or_self (xpath_context.py
440-460): with an active axis the item itself is yielded unmutated; a
document item distinct from the root yields the root element without
mutating self.item; an element or document item yields its children with
self.item mutated, then item and axis are restored. -/
def iter_children_or_self (A : Arena) (c : Ctx) : IterRun :=
  match c.item with
  | none => ⟨[], c⟩
  | some it =>
    if c.axis ≠ none then ⟨[(it, c)], c⟩
    else
      match it with
      | .atomic _ => ⟨[], c⟩
      | .node n =>
        if A.kindOf n = .element ∨ A.kindOf n = .document then
          let c0 := { c with axis := some "child" }
          if c.document = some n ∧ c.root ≠ c.document then
            let ys : List (ItemT × Ctx) :=
              match c.root with
              | some r => [(.node r, c0)]
              | none => []
            ⟨ys, { c0 with item := c.item, axis := c.axis }⟩
          else
            runAxisLoop c c0 ((A.childrenOf n).map ItemT.node)
        else ⟨[], c⟩

/-- Embedding of XPathContext.iter_parent (xpath_context.py 487-501): for
a node item that is not an unrooted fragment root and has a parent, mutate
item to the parent, yield it, restore item and axis. -/
def iter_parent (A : Arena) (c : Ctx) : IterRun :=
  match c.item with
  | some (.node n) =>
    if c.document ≠ none ∨ c.root ≠ some n then
      match A.parentOf n with
      | some p =>
        let c1 := { c with axis := some "parent", item := some (.node p) }
        ⟨[(.node p, c1)], { c1 with item := c.item, axis := c.axis }⟩
      | none => ⟨[], c⟩
    else ⟨[], c⟩
  | _ => ⟨[], c⟩

/-- Embedding of XPathContext.iter_siblings (xpath_context.py 503-527):
yields the parent's children before the item (preceding-sibling) or after
it (following-sibling), mutating self.item, then restores item and axis. -/
def iter_siblings (axisArg : Option String) (A : Arena) (c : Ctx) : IterRun :=
  match c.item with
  | some (.node n) =>
    if c.document ≠ none ∨ c.root ≠ some n then
      match A.parentOf n with
      | some par =>
        let c0 := { c with axis := some (axisArg.getD "following-sibling") }
        let sibs :=
          if axisArg = some "preceding-sibling" then
            (A.childrenOf par).takeWhile (· ≠ n)
          else ((A.childrenOf par).dropWhile (· ≠ n)).drop 1
        runAxisLoop c c0 (sibs.map ItemT.node)
      | none => ⟨[], c⟩
    else ⟨[], c⟩
  | _ => ⟨[], c⟩

/-- Embedding of XPathContext.iter_descendants (xpath_context.py 529-547):
a document or element item yields its descendant tree (without self only
for the descendant axis), mutating self.item, then restores item and axis;
any other node item is yielded once under a swapped axis unless the axis
argument is descendant. -/
def iter_descendants (axisArg : Option String) (A : Arena) (c : Ctx) : IterRun :=
  match c.item with
  | some (.node n) =>
    if A.kindOf n = .document ∨ A.kindOf n = .element then
      runAxisLoop c { c with axis := axisArg }
        ((iterDescendantsNode A (axisArg ≠ some "descendant") n).map ItemT.node)
    else if axisArg ≠ some "descendant" then
      let c1 := { c with axis := axisArg }
      ⟨[(.node n, c1)], { c1 with axis := c.axis }⟩
    else ⟨[], c⟩
  | _ => ⟨[], c⟩

/-- Ancestor chain walked by iter_ancestors: follow parents, appending
each, stopping after appending the context root when no document is bound
(fuelled against ill-founded parent maps). -/
def ancestorChain (A : Arena) (root : Option Nat) (docIsNone : Bool) :
    Nat → Option Nat → List Nat
  | _, none => []
  | 0, some _ => []
  | fuel + 1, some p =>
    p :: (if root = some p ∧ docIsNone then []
          else ancestorChain A root docIsNone fuel (A.parentOf p))

/-- Embedding of XPathContext.iter_ancestors (xpath_context.py 549-574):
collects self (for ancestor-or-self) and the parent chain, then yields the
collected list reversed, mutating self.item, and restores item and axis. -/
def iter_ancestors (axisArg : Option String) (A : Arena) (c : Ctx) : IterRun :=
  match c.item with
  | some (.node n) =>
    let c0 := { c with axis := some (axisArg.getD "ancestor") }
    let selfPart := if axisArg = some "ancestor-or-self" then [n] else []
    let climb :=
      if c.document ≠ none ∨ c.root ≠ some n then
        ancestorChain A c.root (c.document = none) A.size (A.parentOf n)
      else []
    runAxisLoop c c0 ((selfPart ++ climb).reverse.map ItemT.node)
  | _ => ⟨[], c⟩

/-- Climb performed by iter_preceding: from the item's parent upward,
stopping below the context root when no document is bound; returns the
reached top node and the additional ancestors collected. -/
def precedingClimb (A : Arena) (selfRoot : Option Nat) (docIsNone : Bool) :
    Nat → Nat → Nat × List Nat
  | 0, r => (r, [])
  | fuel + 1, r =>
    match A.parentOf r with
    | none => (r, [])
    | some p =>
      if selfRoot = some r ∧ docIsNone then (r, [])
      else
        let rest := precedingClimb A selfRoot docIsNone fuel p
        (rest.1, p :: rest.2)

/-- Embedding of XPathContext.iter_preceding (xpath_context.py 576-597):
walks the top ancestor's document-order descendants up to the item,
yielding those that are not ancestors of the item, mutating self.item,
then restores item and axis. -/
def iter_preceding (A : Arena) (c : Ctx) : IterRun :=
  match c.item with
  | some (.node n) =>
    if c.document ≠ none ∨ c.root ≠ some n then
      match A.parentOf n with
      | some r0 =>
        let c0 := { c with axis := some "preceding" }
        let cl := precedingClimb A c.root (c.document = none) A.size r0
        let ancestors := r0 :: cl.2
        let ys := ((descendantsFrom A (A.size + 1) cl.1).takeWhile (· ≠ n)).filter
          (fun x => decide (x ∉ ancestors))
        runAxisLoop c c0 (ys.map ItemT.node)
      | none => ⟨[], c⟩
    else ⟨[], c⟩
  | _ => ⟨[], c⟩

/-- Climb performed by iter_followings: up the parent chain while the
parent is an element and the current node is not the context root. -/
def followingsClimb (A : Arena) (selfRoot : Option Nat) : Nat → Nat → Nat
  | 0, r => r
  | fuel + 1, r =>
    match A.parentOf r with
    | some p =>
      if A.kindOf p = .element ∧ selfRoot ≠ some r then
        followingsClimb A selfRoot fuel p
      else r
    | none => r

/-- Embedding of XPathContext.iter_followings (xpath_context.py 604-625):
for an element item, yields every proper descendant of the climbed top
node whose position is greater than the item's and which is not a
descendant of the item, mutating self.item, then restores item and axis. -/
def iter_followings (A : Arena) (c : Ctx) : IterRun :=
  match c.item with
  | some (.node n) =>
    if A.kindOf n = .element then
      let c0 := { c with axis := some "following" }
      let descendants := descendantsFrom A (A.size + 1) n
      let pos := A.positionOf n
      let top := followingsClimb A c.root A.size n
      let ys := (iterDescendantsNode A false top).filter
        (fun x => decide (pos < A.positionOf x) && decide (x ∉ descendants))
      runAxisLoop c c0 (ys.map ItemT.node)
    else ⟨[], c⟩
  | _ => ⟨[], c⟩

/-! ## inner_focus_select (xpath_context.py 356-373) -/

/-- States observed at the yields of the forward branch of
inner_focus_select: position enumerates from its first argument upward. -/
def forwardTrace (c0 : Ctx) (L : Int) : Int → List ItemT → List (ItemT × Ctx)
  | _, [] => []
  | p, y :: ys =>
    (y, { c0 with size := L, position := p, item := some y }) ::
      forwardTrace c0 L (p + 1) ys

/-- States observed at the yields of the reverse-axis branch of
inner_focus_select: position starts at the result count and is decremented
after each yield. -/
def reverseTrace (c0 : Ctx) (L : Int) : Int → List ItemT → List (ItemT × Ctx)
  | _, [] => []
  | p, y :: ys =>
    (y, { c0 with size := L, position := p, item := some y }) ::
      reverseTrace c0 L (p - 1) ys

/-- Embedding of XPathContext.inner_focus_select (xpath_context.py
356-373): the four focus fields are saved, the token's results (computed
over a copy of the context) are iterated — reverse axes with
size = position = len(results) and position decremented after each yield,
all other tokens with position enumerated from 1 — and the saved focus is
reassigned after exhaustion. -/
def inner_focus_select (c : Ctx) (reverseAxis : Bool) (results : List ItemT) :
    IterRun :=
  let L : Int := results.length
  let c0 := { c with axis := none }
  let trace :=
    if reverseAxis then reverseTrace c0 L L results
    else forwardTrace c0 L 1 results
  let afterLoop :=
    if reverseAxis then
      match results.getLast? with
      | some y => { c0 with size := L, position := 0, item := some y }
      | none => { c0 with size := L, position := L }
    else
      match results.getLast? with
      | some y => { c0 with size := L, position := L, item := some y }
      | none => { c0 with size := L }
  let final := { afterLoop with item := c.item, size := c.size, position := c.position, axis := c.axis }
  ⟨trace, final⟩

/-! ## XPathContext.__copy__ (xpath_context.py 210-221) -/

/-- Store of the mutable dictionaries referenced by contexts. -/
structure VarStore where
  varDicts : List (List (String × Int))
  nsDicts : List (List (String × String))
deriving DecidableEq, Repr

/-- Python dict item assignment d[k] = v on the association-list model. -/
def dictSet {α : Type} (d : List (String × α)) (k : String) (v : α) :
    List (String × α) :=
  if d.any (fun kv => kv.1 = k) then
    d.map (fun kv => if kv.1 = k then (k, v) else kv)
  else d ++ [(k, v)]

/-- Embedding of XPathContext.__copy__ (xpath_context.py 210-221):
obj.__dict__.update(self.__dict__) makes every field the original's
reference, then document, root, item, size and position are reassigned
unchanged, axis is set to None, and namespaces and variables are rebound
to freshly allocated shallow copies of the original dicts. -/
def XPathContext_copy (c : Ctx) (s : VarStore) : Ctx × VarStore :=
  let vd := s.varDicts.getD c.varsRef []
  let nd := s.nsDicts.getD c.nsRef []
  let obj := { c with axis := none, varsRef := s.varDicts.length, nsRef := s.nsDicts.length }
  (obj, { varDicts := s.varDicts ++ [vd], nsDicts := s.nsDicts ++ [nd] })

/-- Mutation of a context's variables dict (self.variables[k] = v). -/
def setVariable (c : Ctx) (s : VarStore) (k : String) (v : Int) : VarStore :=
  { s with varDicts :=
      s.varDicts.set c.varsRef (dictSet (s.varDicts.getD c.varsRef []) k v) }

/-- Lookup in a context's variables dict. -/
def getVariable (c : Ctx) (s : VarStore) (k : String) : Option Int :=
  (s.varDicts.getD c.varsRef []).lookup k


/-! ## Node tree builder (tree_builders.py 82-189) -/

/-- ElementTree source model: elements carry their attribute count, an
optional text, an optional tail and their children; comments and
processing instructions carry an optional tail (their content is the node
value, not a separate text node). -/
inductive ETree where
  | element (attribs : Nat) (text : Option String) (tail : Option String) (children : List ETree)
  | comment (tail : Option String)
  | procInst (tail : Option String)
deriving Repr

/-- Node record created by the builder: its kind and document-order
position. -/
structure BNode where
  kind : NodeKind
  position : Nat
deriving DecidableEq, Repr

/-- ns_pos_offset = len(namespaces) + int('xml' not in namespaces) + 1
(tree_builders.py 110): in-scope namespace count (the xml namespace is
counted when absent from the mapping) plus one implicit slot. -/
def ns_pos_offset (nsCount : Nat) (xmlPresent : Bool) : Nat :=
  nsCount + (if xmlPresent then 0 else 1) + 1

/-- TextNode creation guarded by `is not None` (the text/tail blocks of
build_node_tree): one node consuming one position slot when present. -/
def textPart (pos : Nat) : Option String → List BNode × Nat
  | some _ => ([⟨.text, pos⟩], pos + 1)
  | none => ([], pos)

/-- Depth-first traversal of build_node_tree (tree_builders.py 146-189)
over a forest of sibling subtrees, threading the position counter: an
element takes the current position, advances the counter by
ns_pos_offset + len(attrib), emits its text node, recurses into its
children and then emits its tail; comments and processing instructions
take one position and then emit their tail.  The source's explicit
stack/deque realizes exactly this traversal without recursion. -/
def buildForest (off : Nat) : List ETree → Nat → List BNode × Nat
  | [], p => ([], p)
  | .element a t tl cs :: rest, p =>
    let p1 := p + off + a
    let (tn, p2) := textPart p1 t
    let (cn, p3) := buildForest off cs p2
    let (tln, p4) := textPart p3 tl
    let (rn, p5) := buildForest off rest p4
    (⟨.element, p⟩ :: (tn ++ cn ++ tln ++ rn), p5)
  | .comment tl :: rest, p =>
    let (tln, p2) := textPart (p + 1) tl
    let (rn, p3) := buildForest off rest p2
    (⟨.comment, p⟩ :: (tln ++ rn), p3)
  | .procInst tl :: rest, p =>
    let (tln, p2) := textPart (p + 1) tl
    let (rn, p3) := buildForest off rest p2
    (⟨.procInst, p⟩ :: (tln ++ rn), p3)

/-- Embedding of build_node_tree (tree_builders.py 82-189) with the
default fragment handling: an ElementTree source (isDoc) wraps the tree in
a document node at position 1 and places the root element at position 2, a
bare element root starts at position 1; the root element then advances the
counter by ns_pos_offset + its attribute count, emits its text node and
its children (the root's tail is never emitted). -/
def build_node_tree_model (isDoc : Bool) (off a : Nat) (t : Option String)
    (cs : List ETree) : List BNode × Nat :=
  let docPart : List BNode := if isDoc then [⟨.document, 1⟩] else []
  let p0 : Nat := if isDoc then 2 else 1
  let p1 := p0 + off + a
  let (tn, p2) := textPart p1 t
  let (cn, p3) := buildForest off cs p2
  (docPart ++ ⟨.element, p0⟩ :: (tn ++ cn), p3)

/-- Position-slot consumption written from the claim's words: each element
advances the counter by (in-scope namespaces + 1 implicit default, i.e.
ns_pos_offset) plus its attribute count before its children, and each
text, comment or processing-instruction node consumes exactly one
position. -/
def positionSpan (off : Nat) : List ETree → Nat
  | [] => 0
  | .element a t tl cs :: rest =>
    off + a + (if t.isSome then 1 else 0) + positionSpan off cs +
      (if tl.isSome then 1 else 0) + positionSpan off rest
  | .comment tl :: rest => 1 + (if tl.isSome then 1 else 0) + positionSpan off rest
  | .procInst tl :: rest => 1 + (if tl.isSome then 1 else 0) + positionSpan off rest


/-! ## Node comparison (_xpath2_operators.py 624-659)

Nodes are node identifiers; a document is its iter_document sequence of
node identifiers in document order; the document-order position of a node
is a function of its identifier. -/

inductive NodeCompOp where
  | identity
  | before
  | after
deriving DecidableEq, Repr

/-- Inner scan of evaluate_node_comparison: walk a document's nodes in
document order; meeting the left operand first answers True for << and
False for >>, meeting the right operand first answers the opposite. -/
def scanDocument (sym : NodeCompOp) (a b : Nat) : List Nat → Option Bool
  | [] => none
  | x :: xs =>
    if x = a then some (decide (sym = .before))
    else if x = b then some (decide (sym ≠ .before))
    else scanDocument sym a b xs

/-- Outer loop over context.root and the document nodes found among the
context variables; when no document contains either operand the for-else
raises FOCA0002. -/
def scanDocuments (sym : NodeCompOp) (a b : Nat) :
    List (List Nat) → Except XPathErr Bool
  | [] => .error .FOCA0002
  | d :: ds =>
    match scanDocument sym a b d with
    | some r => .ok r
    | none => scanDocuments sym a b ds

/-- Embedding of evaluate_node_comparison (_xpath2_operators.py 624-659):
an empty operand yields the empty sequence; an operand that is not exactly
one node raises XPTY0004; is compares node identity; << and >> return
False for identical nodes and otherwise scan the documents in document
order for whichever operand appears first. -/
def evaluate_node_comparison (sym : NodeCompOp) (left right : List ItemT)
    (documents : List (List Nat)) : Except XPathErr (Option Bool) :=
  match left with
  | [] => .ok none
  | [.node a] =>
    match right with
    | [] => .ok none
    | [.node b] =>
      match sym with
      | .identity => .ok (some (decide (a = b)))
      | _ =>
        if a = b then .ok (some false)
        else
          match scanDocuments sym a b documents with
          | .ok r => .ok (some r)
          | .error e => .error e
    | _ => .error .XPTY0004
  | _ => .error .XPTY0004

/-! ## Set operators intersect and except (_xpath2_operators.py 121-136) -/

/-- Items that fail the isinstance(x, XPathNode) check. -/
def isNonNodeItem : ItemT → Bool
  | .node _ => false
  | .atomic _ => true

/-- Node identifier of a node item. -/
def itemNodeId : ItemT → Option Nat
  | .node n => some n
  | .atomic _ => none

/-- Embedding of select_intersect_and_except_operators
(_xpath2_operators.py 121-136): both operand sequences are materialized
into identity-based sets (modelled by deduplicated identifier lists); a
non-node item in either raises XPTY0004; except yields the set difference
and intersect the set intersection, sorted by the node_position key. -/
def select_intersect_except (isExcept : Bool) (pos : Nat → Nat)
    (s1 s2 : List ItemT) : Except XPathErr (List Nat) :=
  if s1.any isNonNodeItem || s2.any isNonNodeItem then .error .XPTY0004
  else
    let n1 := (s1.filterMap itemNodeId).dedup
    let n2 := (s2.filterMap itemNodeId).dedup
    let res := if isExcept then n1.filter (fun n => decide (n ∉ n2))
               else n1.filter (fun n => decide (n ∈ n2))
    .ok (res.insertionSort (fun x y => pos x ≤ pos y))

/-! ## Cartesian product iterator (xpath_context.py 375-408) and the for
expression (_xpath2_operators.py 261-272)

The claim concerns independent selector sequences: each selector is
modelled by the fixed sequence of values it yields, so restarting an
exhausted inner iterator (selectors[k](self)) re-reads the same list. -/

/-- Nested-loop (odometer) product written from the specification's words:
the last sequence varies fastest. -/
def nestedProduct {α : Type} : List (List α) → List (List α)
  | [] => [[]]
  | l :: ls => l.flatMap (fun v => (nestedProduct ls).map (v :: ·))

/-- Termination weight of one odometer dimension. -/
def prodWeight {α : Type} (full : List (List α)) (k : Nat) : Nat :=
  if h : k + 1 < full.length then
    (full.get ⟨k + 1, h⟩).length * prodWeight full (k + 1) + 2
  else 1
termination_by full.length - k

/-- Termination weight of a suspended-iterator stack. -/
def stackMeasure {α : Type} (full : List (List α)) : List (α × List α) → Nat
  | [] => 0
  | (_, s) :: stk => s.length * prodWeight full stk.length + stackMeasure full stk

/-- State machine of the while-loop of XPathContext.iter_product
(xpath_context.py 387-408): the stack holds, for each outer dimension j,
the value currently bound (prod[j]) and the unconsumed remainder of that
dimension's iterator; cur is the remainder of the current dimension
k = stack.length.  Iterators above k are fresh — an exhausted inner
iterator is restarted immediately in the source — so they are read off
the selector table full.  Consuming a value at the last dimension yields
tuple(prod); consuming one higher up pushes it and descends; an exhausted
cur pops (k -= 1) or, at the outermost dimension, returns. -/
def iterProductRun {α : Type} (full : List (List α)) :
    List (α × List α) → List α → List (List α)
  | stack, [] =>
    match stack with
    | [] => []
    | (_, s) :: stk => iterProductRun full stk s
  | stack, v :: rest =>
    if full.length ≤ stack.length + 1 then
      (stack.reverse.map Prod.fst ++ [v]) :: iterProductRun full stack rest
    else
      iterProductRun full ((v, rest) :: stack) (full.getD (stack.length + 1) [])
termination_by stack cur =>
  cur.length * prodWeight full stack.length + stackMeasure full stack + stack.length
decreasing_by
  · simp [stackMeasure]
  · have h1 : 1 ≤ prodWeight full stack.length := by
      unfold prodWeight
      split <;> omega
    have h2 : (rest.length + 1) * prodWeight full stack.length =
        rest.length * prodWeight full stack.length + prodWeight full stack.length := by
      ring
    simp only [List.length_cons]
    omega
  · rename_i hlt
    have hk : stack.length + 1 < full.length := by omega
    have hget : (full.getD (stack.length + 1) []).length =
        (full.get ⟨stack.length + 1, hk⟩).length := by
      simp [List.getD_eq_getElem?_getD, List.getElem?_eq_getElem hk]
    have hw : prodWeight full stack.length =
        (full.get ⟨stack.length + 1, hk⟩).length * prodWeight full (stack.length + 1) + 2 := by
      rw [prodWeight]
      rw [dif_pos hk]
    have h2 : (rest.length + 1) * prodWeight full stack.length =
        rest.length * prodWeight full stack.length + prodWeight full stack.length := by
      ring
    simp only [stackMeasure, List.length_cons, hget]
    omega

/-- Tuples still to be produced once the run pops back into the stack:
for each suspended dimension, the products of its remaining values with
the fresh dimensions below it, prefixed by the values bound above. -/
def iterProductCont {α : Type} (full : List (List α)) :
    List (α × List α) → List (List α)
  | [] => []
  | (_, s) :: stk =>
    (nestedProduct (s :: full.drop (stk.length + 1))).map
      (fun t => stk.reverse.map Prod.fst ++ t) ++ iterProductCont full stk

/-- Embedding of XPathContext.iter_product (xpath_context.py 375-408):
dimension 0 starts with the first selector's fresh iterator and an empty
stack (a zero-dimension call raises IndexError in the source and cannot be
produced by the for-expression grammar). -/
def iter_product {α : Type} (selectors : List (List α)) : List (List α) :=
  match selectors with
  | [] => []
  | l :: _ => iterProductRun selectors [] l

/-- Python dict.update(zip(varnames, results)) on the association-list
model (select_for_expression, _xpath2_operators.py 270). -/
def dict_update {α : Type} (d : List (String × α)) :
    List (String × α) → List (String × α)
  | [] => d
  | kv :: kvs => dict_update (dictSet d kv.1 kv.2) kvs

/-- Embedding of select_for_expression (_xpath2_operators.py 261-272): for
each tuple produced by iter_product over the in-sequences, the tuple's
values are bound to the named variables and the return body is evaluated
over the resulting bindings, its items yielded in order. -/
def select_for_expression {α β : Type} (varnames : List String)
    (selectors : List (List α)) (vars0 : List (String × α))
    (body : List (String × α) → List β) : List β :=
  (iter_product selectors).flatMap
    (fun results => body (dict_update vars0 (varnames.zip results)))

/-! ## Theorems -/

/-- C3: evaluating idiv on the embedded operator: 5 idiv 2 = 2 and
(-5) idiv 2 = -2 hold, a zero divisor raises FOAR0001, an infinite
dividend with nonzero divisor and a NaN operand raise FOAR0002; but at the
exact negative quotient (-4) idiv 2 the code returns -1 where the claim
(truncation toward zero) requires -2 — with Decimal operands the same
division does return -2, showing the int/float nudge branch is the slip. -/
theorem evaluate_idiv_operator_results :
    evaluate_idiv_operator (.int 5) (.int 2) = .ok 2 ∧
    evaluate_idiv_operator (.int (-5)) (.int 2) = .ok (-2) ∧
    evaluate_idiv_operator (.int 5) (.int 0) = .error .FOAR0001 ∧
    evaluate_idiv_operator .posInf (.int 2) = .error .FOAR0002 ∧
    evaluate_idiv_operator .posInf (.int 0) = .error .FOAR0001 ∧
    evaluate_idiv_operator (.int 5) .nan = .error .FOAR0002 ∧
    evaluate_idiv_operator .nan (.int 2) = .error .FOAR0002 ∧
    evaluate_idiv_operator (.int (-4)) (.int 2) = .ok (-1) ∧
    evaluate_idiv_operator (.dec (-4)) (.dec 2) = .ok (-2) :=
  ⟨rfl, rfl, rfl, rfl, rfl, rfl, rfl, rfl, rfl⟩

/-- Helper: on finite operands math.isclose with the source's tolerances
agrees with the specification's combined-tolerance predicate. -/
theorem isclose_fin_iff (x y : ℚ) :
    math_isclose relTol7 0 (.fin x) (.fin y) = spec_double_equal (.fin x) (.fin y) := by
  unfold math_isclose spec_double_equal pyEqFloat pyIsInfFloat
  simp only [Bool.or_false, Bool.false_or]
  by_cases hxy : x = y
  · subst hxy; simp
  · have hne : (decide (x = y)) = false := by simp [hxy]
    rw [Bool.eq_iff_iff]
    simp only [hne, Bool.false_eq_true, if_false, Bool.or_eq_true, decide_eq_true_eq]
    have hrel : (0:ℚ) < relTol7 := by norm_num [relTol7]
    have h1 : |relTol7 * y| = relTol7 * |y| := by
      rw [abs_mul, abs_of_pos hrel]
    have h2 : |relTol7 * x| = relTol7 * |x| := by
      rw [abs_mul, abs_of_pos hrel]
    have h3 : |y - x| = |x - y| := abs_sub_comm y x
    have h4 : relTol7 * max |x| |y| = max (relTol7 * |x|) (relTol7 * |y|) :=
      mul_max_of_nonneg _ _ hrel.le
    rw [h1, h2, h3, le_max_iff, h4, le_max_iff]
    tauto

/-- Helper: numeric_equal agrees with the specification predicate on all
double operands, including the special values. -/
theorem numeric_equal_iff_spec (a b : PyFloat) :
    numeric_equal a b = spec_double_equal a b := by
  cases a <;> cases b <;>
    simp only [numeric_equal, spec_double_equal, pyEqFloat, math_isclose,
      pyIsInfFloat, Bool.or_false, Bool.false_or] <;>
    first
    | rfl
    | (rename_i x y
       by_cases h : x = y
       · simp [h]
       · have := isclose_fin_iff x y
         simp only [math_isclose, spec_double_equal, pyEqFloat, pyIsInfFloat] at this
         simp only [h, decide_eq_true_eq] at this ⊢
         simpa [h] using this)

/-- Helper: numeric_not_equal is the boolean negation of numeric_equal. -/
theorem numeric_not_equal_eq_not (a b : PyFloat) :
    numeric_not_equal a b = !numeric_equal a b := by
  unfold numeric_not_equal numeric_equal
  by_cases h : pyEqFloat a b = true <;> simp [h]

/-- C6: for two xs:double operands, eq returns true exactly when the
operands are exactly equal or within combined relative tolerance 1e-7 and
absolute tolerance 0, ne returns the negation of that predicate, and NaN
is never equal to itself (eq gives false, ne gives true). -/
theorem value_comparison_double_eq_ne :
    (∀ a b : PyFloat, evaluate_value_comparison .eq a b = spec_double_equal a b) ∧
    (∀ a b : PyFloat, evaluate_value_comparison .ne a b = !spec_double_equal a b) ∧
    evaluate_value_comparison .eq .nan .nan = false ∧
    evaluate_value_comparison .ne .nan .nan = true := by
  refine ⟨fun a b => ?_, fun a b => ?_, rfl, rfl⟩
  · exact numeric_equal_iff_spec a b
  · rw [show evaluate_value_comparison .ne a b = numeric_not_equal a b from rfl,
      numeric_not_equal_eq_not, numeric_equal_iff_spec]

/-- C9 counterexample: with a schema bound, a MissingContextError raised
while draining the schema-aware pass is not swallowed — parse propagates
it, where the claim asserts parse still succeeds. -/
theorem parser_parse_schema_missing_context_propagates :
    parser_parse true ⟨"function", none, some .missingContext⟩ =
      .error .missingContext := rfl

/-- C9 (amended): only the context-free trial evaluation is wrapped in the
MissingContextError handler: a MissingContextError there is swallowed and
parse proceeds, any other error there propagates; every error raised in
the schema-bound second pass, MissingContextError included, propagates. -/
theorem parser_parse_static_check :
    (∀ (b : Bool) (t : TokenModel), tokenLabelAllowed t →
      t.staticEval = some .missingContext →
      parser_parse b t = parser_parse_schema_pass b t) ∧
    (∀ (b : Bool) (t : TokenModel) (e : XPathErr), tokenLabelAllowed t →
      e ≠ .missingContext → t.staticEval = some e →
      parser_parse b t = .error e) ∧
    (∀ (t : TokenModel) (e : XPathErr), tokenLabelAllowed t →
      (t.staticEval = none ∨ t.staticEval = some .missingContext) →
      t.schemaSelect = some e →
      parser_parse true t = .error e) ∧
    (∀ (t : TokenModel), tokenLabelAllowed t →
      t.staticEval = none → t.schemaSelect = none →
      parser_parse true t = .ok t) := by
  refine ⟨?_, ?_, ?_, ?_⟩
  · intro b t hl hs
    simp [parser_parse, hl, hs]
  · intro b t e hl he hs
    simp [parser_parse, hl, hs, he]
  · intro t e hl hs hsel
    rcases hs with hs | hs <;>
      simp [parser_parse, parser_parse_schema_pass, hl, hs, hsel]
  · intro t hl hs hsel
    simp [parser_parse, parser_parse_schema_pass, hl, hs, hsel]

/-- C9 witness: the amended theorem applied at concrete tokens. -/
theorem parser_parse_static_check_witness :
    parser_parse true ⟨"function", some .missingContext, none⟩ =
      .ok ⟨"function", some .missingContext, none⟩ ∧
    parser_parse false ⟨"function", some .XPTY0004, none⟩ = .error .XPTY0004 ∧
    parser_parse true ⟨"function", none, some .FOAR0001⟩ = .error .FOAR0001 ∧
    parser_parse true ⟨"function", none, none⟩ =
      .ok ⟨"function", none, none⟩ := by
  refine ⟨?_, ?_, ?_, ?_⟩
  · rw [parser_parse_static_check.1 true ⟨"function", some .missingContext, none⟩
      (by decide) rfl]
    rfl
  · exact parser_parse_static_check.2.1 false ⟨"function", some .XPTY0004, none⟩
      .XPTY0004 (by decide) (by decide) rfl
  · exact parser_parse_static_check.2.2.1 ⟨"function", none, some .FOAR0001⟩
      .FOAR0001 (by decide) (Or.inl rfl) rfl
  · exact parser_parse_static_check.2.2.2 ⟨"function", none, none⟩
      (by decide) rfl rfl

theorem runAxisLoop_final (saved c0 : Ctx) (ys : List ItemT) :
    (runAxisLoop saved c0 ys).final = { c0 with item := saved.item, axis := saved.axis } := by
  unfold runAxisLoop
  cases ys.getLast? <;> rfl

theorem iter_self_final (c : Ctx) : (iter_self c).final = c := by
  obtain ⟨i0, p0, s0, a0, v0, n0, r0, d0⟩ := c
  unfold iter_self
  cases i0 <;> rfl

theorem iter_attributes_final (A : Arena) (c : Ctx) :
    (iter_attributes A c).final = c := by
  obtain ⟨i0, p0, s0, a0, v0, n0, r0, d0⟩ := c
  unfold iter_attributes
  cases i0 with
  | none => rfl
  | some it =>
    cases it with
    | atomic v => rfl
    | node n =>
      by_cases h1 : A.kindOf n = .attribute
      · simp [h1]
      · by_cases h2 : A.kindOf n = .element
        · simp [h1, h2, runAxisLoop_final]
        · simp [h1, h2]

theorem iter_children_or_self_final (A : Arena) (c : Ctx) :
    (iter_children_or_self A c).final = c := by
  obtain ⟨i0, p0, s0, a0, v0, n0, r0, d0⟩ := c
  unfold iter_children_or_self
  cases i0 with
  | none => rfl
  | some it =>
    by_cases ha : a0 ≠ none
    · simp [ha]
    · cases it with
      | atomic v => simp [ha]
      | node n =>
        by_cases h1 : A.kindOf n = .element ∨ A.kindOf n = .document
        · by_cases h2 : d0 = some n ∧ r0 ≠ d0
          · obtain ⟨h2a, h2b⟩ := h2
            subst h2a
            cases r0 with
            | none => simp [ha, h1]
            | some rv =>
              have hrv : rv ≠ n := fun h => h2b (by rw [h])
              simp [ha, h1, hrv]
          · simp [ha, h1, h2, runAxisLoop_final]
        · simp [ha, h1]

theorem iter_parent_final (A : Arena) (c : Ctx) :
    (iter_parent A c).final = c := by
  obtain ⟨i0, p0, s0, a0, v0, n0, r0, d0⟩ := c
  unfold iter_parent
  cases i0 with
  | none => rfl
  | some it =>
    cases it with
    | atomic v => rfl
    | node n =>
      dsimp only
      by_cases h1 : d0 ≠ none ∨ r0 ≠ some n
      · rw [if_pos h1]
        cases A.parentOf n <;> rfl
      · rw [if_neg h1]

theorem iter_siblings_final (axisArg : Option String) (A : Arena) (c : Ctx) :
    (iter_siblings axisArg A c).final = c := by
  obtain ⟨i0, p0, s0, a0, v0, n0, r0, d0⟩ := c
  unfold iter_siblings
  cases i0 with
  | none => rfl
  | some it =>
    cases it with
    | atomic v => rfl
    | node n =>
      dsimp only
      by_cases h1 : d0 ≠ none ∨ r0 ≠ some n
      · rw [if_pos h1]
        cases A.parentOf n <;> simp [runAxisLoop_final]
      · rw [if_neg h1]

theorem iter_descendants_final (axisArg : Option String) (A : Arena) (c : Ctx) :
    (iter_descendants axisArg A c).final = c := by
  obtain ⟨i0, p0, s0, a0, v0, n0, r0, d0⟩ := c
  unfold iter_descendants
  cases i0 with
  | none => rfl
  | some it =>
    cases it with
    | atomic v => rfl
    | node n =>
      by_cases h1 : A.kindOf n = .document ∨ A.kindOf n = .element
      · simp [h1, runAxisLoop_final]
      · by_cases h2 : axisArg ≠ some "descendant"
        · simp [h1, h2]
        · simp [h1, h2]

theorem iter_ancestors_final (axisArg : Option String) (A : Arena) (c : Ctx) :
    (iter_ancestors axisArg A c).final = c := by
  obtain ⟨i0, p0, s0, a0, v0, n0, r0, d0⟩ := c
  unfold iter_ancestors
  cases i0 with
  | none => rfl
  | some it =>
    cases it with
    | atomic v => rfl
    | node n => simp [runAxisLoop_final]

theorem iter_preceding_final (A : Arena) (c : Ctx) :
    (iter_preceding A c).final = c := by
  obtain ⟨i0, p0, s0, a0, v0, n0, r0, d0⟩ := c
  unfold iter_preceding
  cases i0 with
  | none => rfl
  | some it =>
    cases it with
    | atomic v => rfl
    | node n =>
      dsimp only
      by_cases h1 : d0 ≠ none ∨ r0 ≠ some n
      · rw [if_pos h1]
        cases A.parentOf n <;> simp [runAxisLoop_final]
      · rw [if_neg h1]

theorem iter_followings_final (A : Arena) (c : Ctx) :
    (iter_followings A c).final = c := by
  obtain ⟨i0, p0, s0, a0, v0, n0, r0, d0⟩ := c
  unfold iter_followings
  cases i0 with
  | none => rfl
  | some it =>
    cases it with
    | atomic v => rfl
    | node n =>
      by_cases h1 : A.kindOf n = .element
      · simp [h1, runAxisLoop_final]
      · simp [h1]

/-- C1 (amended): every axis iterator of XPathContext (iter_self,
iter_attributes, iter_children_or_self, iter_parent, iter_siblings,
iter_descendants, iter_ancestors, iter_preceding, iter_followings)
restores the context's item, position, size and axis to their prior values
once the iteration is exhausted, for every arena, starting focus and axis
argument; restoration on early abandonment does not hold (see the
counterexample), since the restore statements only run after the loop. -/
theorem axis_iterators_restore_focus (A : Arena) (c : Ctx) (axisArg : Option String) :
    (iter_self c).final = c ∧
    (iter_attributes A c).final = c ∧
    (iter_children_or_self A c).final = c ∧
    (iter_parent A c).final = c ∧
    (iter_siblings axisArg A c).final = c ∧
    (iter_descendants axisArg A c).final = c ∧
    (iter_ancestors axisArg A c).final = c ∧
    (iter_preceding A c).final = c ∧
    (iter_followings A c).final = c :=
  ⟨iter_self_final c, iter_attributes_final A c, iter_children_or_self_final A c,
   iter_parent_final A c, iter_siblings_final axisArg A c,
   iter_descendants_final axisArg A c, iter_ancestors_final axisArg A c,
   iter_preceding_final A c, iter_followings_final A c⟩

/-- C1 counterexample: when the consumer of iter_attributes stops pulling
after the first yielded attribute, the suspended context retains the
mutated focus — item is the attribute node and axis is attribute — so the
context's fields do not equal their values from before the iteration, and
the claim's early-abandonment restoration fails. -/
theorem iter_attributes_abandoned_not_restored :
    abandonedCtx
      (iter_attributes
        ⟨2, (fun n => if n = 0 then .element else .attribute), (fun _ => none),
          (fun _ => []), (fun n => if n = 0 then [1] else []), (fun _ => 0)⟩
        ⟨some (.node 0), 3, 7, none, 0, 0, some 0, none⟩) 0 =
      some ⟨some (.node 1), 3, 7, some "attribute", 0, 0, some 0, none⟩ ∧
    (⟨some (.node 1), 3, 7, some "attribute", 0, 0, some 0, none⟩ : Ctx).item ≠
      (⟨some (.node 0), 3, 7, none, 0, 0, some 0, none⟩ : Ctx).item ∧
    (⟨some (.node 1), 3, 7, some "attribute", 0, 0, some 0, none⟩ : Ctx).axis ≠
      (⟨some (.node 0), 3, 7, none, 0, 0, some 0, none⟩ : Ctx).axis :=
  ⟨rfl, by decide, by decide⟩

theorem forwardTrace_get (c0 : Ctx) (L : Int) (ys : List ItemT) :
    ∀ (p : Int) (i : Nat) (h : i < ys.length),
      (forwardTrace c0 L p ys).get? i =
        some (ys.get ⟨i, h⟩,
          { c0 with size := L, position := p + i, item := some (ys.get ⟨i, h⟩) }) := by
  induction ys with
  | nil => intro p i h; simp at h
  | cons y ys ih =>
    intro p i h
    cases i with
    | zero => simp [forwardTrace]
    | succ j =>
      have hj : j < ys.length := by simpa using h
      simp only [forwardTrace, List.get?_cons_succ]
      rw [ih (p + 1) j hj]
      have harith : p + 1 + (j : Int) = p + ((j : Nat) + 1 : Nat) := by push_cast; ring
      simp [List.get_cons_succ, harith]

theorem reverseTrace_get (c0 : Ctx) (L : Int) (ys : List ItemT) :
    ∀ (p : Int) (i : Nat) (h : i < ys.length),
      (reverseTrace c0 L p ys).get? i =
        some (ys.get ⟨i, h⟩,
          { c0 with size := L, position := p - i, item := some (ys.get ⟨i, h⟩) }) := by
  induction ys with
  | nil => intro p i h; simp at h
  | cons y ys ih =>
    intro p i h
    cases i with
    | zero => simp [reverseTrace]
    | succ j =>
      have hj : j < ys.length := by simpa using h
      simp only [reverseTrace, List.get?_cons_succ]
      rw [ih (p - 1) j hj]
      have harith : p - 1 - (j : Int) = p - ((j : Nat) + 1 : Nat) := by push_cast; ring
      simp [List.get_cons_succ, harith]

theorem inner_focus_select_final (c : Ctx) (rev : Bool) (rs : List ItemT) :
    (inner_focus_select c rev rs).final = c := by
  obtain ⟨i0, p0, s0, a0, v0, n0, r0, d0⟩ := c
  unfold inner_focus_select
  cases rev <;> dsimp only <;> cases h : rs.getLast? <;> simp [h]

/-- C10: inner_focus_select iterates a reverse-axis token's results with
size fixed to the result count and position counting down from that count
(so the i-th yield, 0-based, is observed at position size - i: the first
at position = size, the last at 1), iterates any other token's results
with position enumerated 1, 2, … up to size, and restores the saved
item/size/position/axis after exhaustion. -/
theorem inner_focus_select_spec :
    (∀ (c : Ctx) (rev : Bool) (rs : List ItemT),
      (inner_focus_select c rev rs).final = c) ∧
    (∀ (c : Ctx) (rs : List ItemT) (i : Nat) (h : i < rs.length),
      (inner_focus_select c true rs).yields.get? i =
        some (rs.get ⟨i, h⟩,
          { c with axis := none, size := (rs.length : Int), position := (rs.length : Int) - i, item := some (rs.get ⟨i, h⟩) })) ∧
    (∀ (c : Ctx) (rs : List ItemT) (i : Nat) (h : i < rs.length),
      (inner_focus_select c false rs).yields.get? i =
        some (rs.get ⟨i, h⟩,
          { c with axis := none, size := (rs.length : Int), position := 1 + (i : Int), item := some (rs.get ⟨i, h⟩) })) := by
  refine ⟨inner_focus_select_final, fun c rs i h => ?_, fun c rs i h => ?_⟩
  · have := reverseTrace_get { c with axis := none } (rs.length : Int) rs
      (rs.length : Int) i h
    simpa [inner_focus_select] using this
  · have := forwardTrace_get { c with axis := none } (rs.length : Int) rs 1 i h
    simpa [inner_focus_select] using this

/-- C10 witness: the theorem applied to a two-element result list, in
reverse (positions 2 then 1) and forward (positions 1 then 2) mode, and
the focus restored afterwards. -/
theorem inner_focus_select_spec_witness :
    (0 < ([ItemT.atomic 5, ItemT.atomic 7] : List ItemT).length) ∧
    (inner_focus_select ⟨none, 9, 9, some "child", 0, 0, none, none⟩ true
        [.atomic 5, .atomic 7]).yields.get? 0 =
      some (.atomic 5, ⟨some (.atomic 5), 2, 2, none, 0, 0, none, none⟩) ∧
    (inner_focus_select ⟨none, 9, 9, some "child", 0, 0, none, none⟩ false
        [.atomic 5, .atomic 7]).yields.get? 1 =
      some (.atomic 7, ⟨some (.atomic 7), 2, 2, none, 0, 0, none, none⟩) ∧
    (inner_focus_select ⟨none, 9, 9, some "child", 0, 0, none, none⟩ true
        [.atomic 5, .atomic 7]).final = ⟨none, 9, 9, some "child", 0, 0, none, none⟩ := by
  refine ⟨by decide, ?_, ?_, ?_⟩
  · simpa using inner_focus_select_spec.2.1
      ⟨none, 9, 9, some "child", 0, 0, none, none⟩ [.atomic 5, .atomic 7] 0 (by decide)
  · simpa using inner_focus_select_spec.2.2
      ⟨none, 9, 9, some "child", 0, 0, none, none⟩ [.atomic 5, .atomic 7] 1 (by decide)
  · exact inner_focus_select_spec.1 _ true _

theorem listGetD_append_lt {α : Type} (l1 l2 : List α) (i : Nat) (d : α)
    (h : i < l1.length) : (l1 ++ l2).getD i d = l1.getD i d := by
  simp [List.getD, List.getElem?_append, h]

theorem listGetD_append_len {α : Type} (l1 : List α) (x d : α) :
    (l1 ++ [x]).getD l1.length d = x := by
  simp [List.getD]

theorem listGetD_set_ne {α : Type} (l : List α) (i j : Nat) (x d : α)
    (h : i ≠ j) : (l.set i x).getD j d = l.getD j d := by
  simp [List.getD, List.getElem?_set_ne h]

/-- C2 counterexample: __copy__ assigns axis = None, so copying a context
whose axis is the child axis yields a copy whose axis differs from the
original's, refuting the claim that the copy's axis equals the
original's. -/
theorem XPathContext_copy_drops_axis :
    ((XPathContext_copy ⟨none, 1, 1, some "child", 0, 0, none, none⟩
        ⟨[[]], [[]]⟩).1).axis ≠
      (⟨none, 1, 1, some "child", 0, 0, none, none⟩ : Ctx).axis := by decide

/-- C2 (amended): __copy__ produces a context whose item, size and
position equal the original's and whose axis is reset to None; root and
document remain the shared references; the variables mapping is a freshly
allocated dict holding the same entries, so the copy reads the original's
bindings, the copy's allocation leaves the original's dict untouched, and
mutating the copy's dict is never visible through the original — nor is it
visible through a sibling copy taken from the same original. -/
theorem XPathContext_copy_spec (c : Ctx) (s : VarStore)
    (hv : c.varsRef < s.varDicts.length) :
    ((XPathContext_copy c s).1.item = c.item ∧
     (XPathContext_copy c s).1.size = c.size ∧
     (XPathContext_copy c s).1.position = c.position ∧
     (XPathContext_copy c s).1.axis = none ∧
     (XPathContext_copy c s).1.root = c.root ∧
     (XPathContext_copy c s).1.document = c.document) ∧
    (∀ k, getVariable (XPathContext_copy c s).1 (XPathContext_copy c s).2 k =
      getVariable c s k) ∧
    (∀ k, getVariable c (XPathContext_copy c s).2 k = getVariable c s k) ∧
    (∀ k v k2, getVariable c
      (setVariable (XPathContext_copy c s).1 (XPathContext_copy c s).2 k v) k2 =
      getVariable c s k2) ∧
    (∀ k v k2,
      getVariable (XPathContext_copy c (XPathContext_copy c s).2).1
        (setVariable (XPathContext_copy c s).1
          (XPathContext_copy c (XPathContext_copy c s).2).2 k v) k2 =
      getVariable c s k2) := by
  refine ⟨⟨rfl, rfl, rfl, rfl, rfl, rfl⟩, fun k => ?_, fun k => ?_,
    fun k v k2 => ?_, fun k v k2 => ?_⟩
  · simp only [XPathContext_copy, getVariable]
    rw [listGetD_append_len]
  · simp only [XPathContext_copy, getVariable]
    rw [listGetD_append_lt _ _ _ _ hv]
  · simp only [XPathContext_copy, getVariable, setVariable]
    rw [listGetD_set_ne _ _ _ _ _ (Nat.ne_of_gt hv),
      listGetD_append_lt _ _ _ _ hv]
  · simp only [XPathContext_copy, getVariable, setVariable]
    rw [listGetD_set_ne _ _ _ _ _ (by simp),
      listGetD_append_len, listGetD_append_lt _ _ _ _ hv]

/-- C2 witness: the amended copy theorem applied at a concrete context and
store: the copy sees the original's variable binding, and mutating the
copy's dict leaves the original's binding intact. -/
theorem XPathContext_copy_spec_witness :
    (⟨none, 1, 1, some "child", 0, 0, none, none⟩ : Ctx).varsRef <
      (⟨[[("x", 3)]], [[]]⟩ : VarStore).varDicts.length ∧
    getVariable
      (XPathContext_copy ⟨none, 1, 1, some "child", 0, 0, none, none⟩
        ⟨[[("x", 3)]], [[]]⟩).1
      (XPathContext_copy ⟨none, 1, 1, some "child", 0, 0, none, none⟩
        ⟨[[("x", 3)]], [[]]⟩).2 "x" = some 3 ∧
    getVariable ⟨none, 1, 1, some "child", 0, 0, none, none⟩
      (setVariable
        (XPathContext_copy ⟨none, 1, 1, some "child", 0, 0, none, none⟩
          ⟨[[("x", 3)]], [[]]⟩).1
        (XPathContext_copy ⟨none, 1, 1, some "child", 0, 0, none, none⟩
          ⟨[[("x", 3)]], [[]]⟩).2 "x" 9) "x" = some 3 := by
  refine ⟨by decide, ?_, ?_⟩
  · rw [(XPathContext_copy_spec _ _ (by decide)).2.1 "x"]
    rfl
  · rw [(XPathContext_copy_spec _ _ (by decide)).2.2.2.1 "x" 9 "x"]
    rfl

theorem textPart_spec (p : Nat) (o : Option String) :
    (∀ b ∈ (textPart p o).1, b.position = p) ∧
    (textPart p o).2 = p + (if o.isSome then 1 else 0) ∧
    List.Pairwise (fun x y : BNode => x.position < y.position) (textPart p o).1 := by
  cases o <;> simp [textPart]

theorem textPart_mem (p : Nat) (o : Option String) :
    ∀ b ∈ (textPart p o).1, b.position = p ∧ (textPart p o).2 = p + 1 := by
  cases o <;> simp [textPart]

theorem buildForest_spec (off : Nat) (hoff : 1 ≤ off) :
    ∀ (ts : List ETree) (p : Nat),
      (∀ b ∈ (buildForest off ts p).1,
        p ≤ b.position ∧ b.position < (buildForest off ts p).2) ∧
      List.Pairwise (fun x y : BNode => x.position < y.position)
        (buildForest off ts p).1 ∧
      (buildForest off ts p).2 = p + positionSpan off ts := by
  intro ts p
  induction ts, p using buildForest.induct off with
  | case1 p => simp [buildForest, positionSpan]
  | case2 a t tl cs rest p p1 tn p2 htn cn p3 hcn tln p4 htln rn p5 hrn ihcs ihrest =>
    have hp1 : p1 = p + off + a := rfl
    rw [hp1] at htn
    obtain ⟨ihcs_b, ihcs_s, ihcs_e⟩ := ihcs
    obtain ⟨ihr_b, ihr_s, ihr_e⟩ := ihrest
    rw [hcn] at ihcs_b ihcs_s ihcs_e
    rw [hrn] at ihr_b ihr_s ihr_e
    have htn_m := textPart_mem (p + off + a) t
    have htn_s := textPart_spec (p + off + a) t
    rw [htn] at htn_m htn_s
    have htl_m := textPart_mem p3 tl
    have htl_s := textPart_spec p3 tl
    rw [htln] at htl_m htl_s
    obtain ⟨-, htn2, htn3⟩ := htn_s
    obtain ⟨-, htl2, htl3⟩ := htl_s
    dsimp only at ihcs_b ihcs_s ihcs_e ihr_b ihr_s ihr_e htn_m htn2 htn3 htl_m htl2 htl3
    have hBF : buildForest off (ETree.element a t tl cs :: rest) p =
        (⟨.element, p⟩ :: (tn ++ (cn ++ (tln ++ rn))), p5) := by
      simp only [buildForest]
      rw [htn]
      dsimp only
      rw [hcn]
      dsimp only
      rw [htln]
      dsimp only
      rw [hrn]
      simp [List.append_assoc]
    rw [hBF]
    dsimp only
    refine ⟨?_, ?_, ?_⟩
    · intro b hb
      rcases List.mem_cons.mp hb with rfl | hb
      · dsimp only
        omega
      rcases List.mem_append.mp hb with hb | hb
      · obtain ⟨hbp, hb2⟩ := htn_m b hb
        omega
      rcases List.mem_append.mp hb with hb | hb
      · have := ihcs_b b hb
        omega
      rcases List.mem_append.mp hb with hb | hb
      · obtain ⟨hbp, hb4⟩ := htl_m b hb
        omega
      · have := ihr_b b hb
        omega
    · rw [List.pairwise_cons]
      constructor
      · intro b hb
        dsimp only
        rcases List.mem_append.mp hb with hb | hb
        · obtain ⟨hbp, hb2⟩ := htn_m b hb
          omega
        rcases List.mem_append.mp hb with hb | hb
        · have := ihcs_b b hb
          omega
        rcases List.mem_append.mp hb with hb | hb
        · obtain ⟨hbp, hb2⟩ := htl_m b hb
          omega
        · have := ihr_b b hb
          omega
      · refine List.pairwise_append.mpr ⟨htn3, List.pairwise_append.mpr
          ⟨ihcs_s, List.pairwise_append.mpr ⟨htl3, ihr_s, ?_⟩, ?_⟩, ?_⟩
        · intro x hx y hy
          obtain ⟨hxp, hx4⟩ := htl_m x hx
          have := ihr_b y hy
          omega
        · intro x hx y hy
          have hx2 := ihcs_b x hx
          rcases List.mem_append.mp hy with hy | hy
          · obtain ⟨hyp, hy2⟩ := htl_m y hy
            omega
          · have := ihr_b y hy
            omega
        · intro x hx y hy
          obtain ⟨hxp, hx2⟩ := htn_m x hx
          rcases List.mem_append.mp hy with hy | hy
          · have := ihcs_b y hy
            omega
          rcases List.mem_append.mp hy with hy | hy
          · obtain ⟨hyp, hy2⟩ := htl_m y hy
            omega
          · have := ihr_b y hy
            omega
    · simp only [positionSpan]
      omega
  | case3 tl rest p tln p2 htln rn p3 hrn ihrest =>
    obtain ⟨ihr_b, ihr_s, ihr_e⟩ := ihrest
    rw [hrn] at ihr_b ihr_s ihr_e
    have htl_m := textPart_mem (p + 1) tl
    have htl_s := textPart_spec (p + 1) tl
    rw [htln] at htl_m htl_s
    obtain ⟨-, htl2, htl3⟩ := htl_s
    dsimp only at ihr_b ihr_s ihr_e htl_m htl2 htl3
    have hBF : buildForest off (ETree.comment tl :: rest) p =
        (⟨.comment, p⟩ :: (tln ++ rn), p3) := by
      simp only [buildForest]
      rw [htln]
      dsimp only
      rw [hrn]
    rw [hBF]
    dsimp only
    refine ⟨?_, ?_, ?_⟩
    · intro b hb
      rcases List.mem_cons.mp hb with rfl | hb
      · dsimp only
        omega
      rcases List.mem_append.mp hb with hb | hb
      · obtain ⟨hbp, hb2⟩ := htl_m b hb
        omega
      · have := ihr_b b hb
        omega
    · rw [List.pairwise_cons]
      refine ⟨?_, List.pairwise_append.mpr ⟨htl3, ihr_s, ?_⟩⟩
      · intro b hb
        dsimp only
        rcases List.mem_append.mp hb with hb | hb
        · obtain ⟨hbp, hb2⟩ := htl_m b hb
          omega
        · have := ihr_b b hb
          omega
      · intro x hx y hy
        obtain ⟨hxp, hx2⟩ := htl_m x hx
        have := ihr_b y hy
        omega
    · simp only [positionSpan]
      omega
  | case4 tl rest p tln p2 htln rn p3 hrn ihrest =>
    obtain ⟨ihr_b, ihr_s, ihr_e⟩ := ihrest
    rw [hrn] at ihr_b ihr_s ihr_e
    have htl_m := textPart_mem (p + 1) tl
    have htl_s := textPart_spec (p + 1) tl
    rw [htln] at htl_m htl_s
    obtain ⟨-, htl2, htl3⟩ := htl_s
    dsimp only at ihr_b ihr_s ihr_e htl_m htl2 htl3
    have hBF : buildForest off (ETree.procInst tl :: rest) p =
        (⟨.procInst, p⟩ :: (tln ++ rn), p3) := by
      simp only [buildForest]
      rw [htln]
      dsimp only
      rw [hrn]
    rw [hBF]
    dsimp only
    refine ⟨?_, ?_, ?_⟩
    · intro b hb
      rcases List.mem_cons.mp hb with rfl | hb
      · dsimp only
        omega
      rcases List.mem_append.mp hb with hb | hb
      · obtain ⟨hbp, hb2⟩ := htl_m b hb
        omega
      · have := ihr_b b hb
        omega
    · rw [List.pairwise_cons]
      refine ⟨?_, List.pairwise_append.mpr ⟨htl3, ihr_s, ?_⟩⟩
      · intro b hb
        dsimp only
        rcases List.mem_append.mp hb with hb | hb
        · obtain ⟨hbp, hb2⟩ := htl_m b hb
          omega
        · have := ihr_b b hb
          omega
      · intro x hx y hy
        obtain ⟨hxp, hx2⟩ := htl_m x hx
        have := ihr_b y hy
        omega
    · simp only [positionSpan]
      omega

theorem ns_pos_offset_pos (nsCount : Nat) (xmlPresent : Bool) :
    1 ≤ ns_pos_offset nsCount xmlPresent := by
  cases xmlPresent <;> simp [ns_pos_offset]

theorem elem_with_children_spec (off : Nat) (hoff : 1 ≤ off) (p0 a : Nat)
    (t : Option String) (cs : List ETree) (tn cn : List BNode) (p2 p3 : Nat)
    (htn : textPart (p0 + off + a) t = (tn, p2))
    (hcn : buildForest off cs p2 = (cn, p3)) :
    (∀ b ∈ (⟨NodeKind.element, p0⟩ : BNode) :: (tn ++ cn),
      p0 ≤ b.position ∧ b.position < p3) ∧
    List.Pairwise (fun x y : BNode => x.position < y.position)
      (⟨NodeKind.element, p0⟩ :: (tn ++ cn)) ∧
    p3 = p0 + off + a + (if t.isSome then 1 else 0) + positionSpan off cs := by
  have htn_m := textPart_mem (p0 + off + a) t
  have htn_s := textPart_spec (p0 + off + a) t
  rw [htn] at htn_m htn_s
  obtain ⟨-, htn2, htn3⟩ := htn_s
  have hcs := buildForest_spec off hoff cs p2
  rw [hcn] at hcs
  obtain ⟨hcs_b, hcs_s, hcs_e⟩ := hcs
  dsimp only at htn_m htn2 htn3 hcs_b hcs_s hcs_e
  refine ⟨?_, ?_, ?_⟩
  · intro b hb
    rcases List.mem_cons.mp hb with rfl | hb
    · dsimp only
      omega
    rcases List.mem_append.mp hb with hb | hb
    · obtain ⟨hbp, hb2⟩ := htn_m b hb
      omega
    · have := hcs_b b hb
      omega
  · rw [List.pairwise_cons]
    constructor
    · intro b hb
      dsimp only
      rcases List.mem_append.mp hb with hb | hb
      · obtain ⟨hbp, hb2⟩ := htn_m b hb
        omega
      · have := hcs_b b hb
        omega
    · refine List.pairwise_append.mpr ⟨htn3, hcs_s, ?_⟩
      intro x hx y hy
      obtain ⟨hxp, hx2⟩ := htn_m x hx
      have := hcs_b y hy
      omega
  · omega

/-- C4: for every ElementTree document or element source, the positions of
the nodes created by build_node_tree, read in document order, are strictly
increasing (hence unique within one tree); the final counter value records
that each element advanced the counter by ns_pos_offset (in-scope
namespaces + 1 implicit default) plus its attribute count before its
children, and that each text, comment or processing-instruction node
consumed exactly one position. -/
theorem build_node_tree_positions (isDoc : Bool) (nsCount a : Nat)
    (xmlPresent : Bool) (t : Option String) (cs : List ETree) :
    List.Pairwise (fun x y : BNode => x.position < y.position)
      (build_node_tree_model isDoc (ns_pos_offset nsCount xmlPresent) a t cs).1 ∧
    ((build_node_tree_model isDoc (ns_pos_offset nsCount xmlPresent) a t cs).1.map
      BNode.position).Nodup ∧
    (build_node_tree_model isDoc (ns_pos_offset nsCount xmlPresent) a t cs).2 =
      (if isDoc then 2 else 1) + ns_pos_offset nsCount xmlPresent + a +
        (if t.isSome then 1 else 0) +
        positionSpan (ns_pos_offset nsCount xmlPresent) cs := by
  have hoff := ns_pos_offset_pos nsCount xmlPresent
  generalize hoffeq : ns_pos_offset nsCount xmlPresent = off at hoff ⊢
  cases isDoc with
  | false =>
    rcases htn : textPart (1 + off + a) t with ⟨tn, p2⟩
    rcases hcn : buildForest off cs p2 with ⟨cn, p3⟩
    have hBM : build_node_tree_model false off a t cs =
        ((⟨NodeKind.element, 1⟩ : BNode) :: (tn ++ cn), p3) := by
      simp [build_node_tree_model, htn, hcn]
    obtain ⟨hb, hs, he⟩ := elem_with_children_spec off hoff 1 a t cs tn cn p2 p3 htn hcn
    rw [hBM]
    refine ⟨hs, ?_, by simpa using he⟩
    exact List.pairwise_map.mpr (hs.imp fun h => Nat.ne_of_lt h)
  | true =>
    rcases htn : textPart (2 + off + a) t with ⟨tn, p2⟩
    rcases hcn : buildForest off cs p2 with ⟨cn, p3⟩
    have hBM : build_node_tree_model true off a t cs =
        ((⟨NodeKind.document, 1⟩ : BNode) ::
          (⟨NodeKind.element, 2⟩ : BNode) :: (tn ++ cn), p3) := by
      simp [build_node_tree_model, htn, hcn]
    obtain ⟨hb, hs, he⟩ := elem_with_children_spec off hoff 2 a t cs tn cn p2 p3 htn hcn
    rw [hBM]
    have hpw : List.Pairwise (fun x y : BNode => x.position < y.position)
        ((⟨NodeKind.document, 1⟩ : BNode) ::
          (⟨NodeKind.element, 2⟩ : BNode) :: (tn ++ cn)) := by
      rw [List.pairwise_cons]
      refine ⟨?_, hs⟩
      intro b hbm
      rcases List.mem_cons.mp hbm with rfl | hbm
      · dsimp only
        omega
      · have := hb b (List.mem_cons_of_mem _ hbm)
        dsimp only
        omega
    refine ⟨hpw, ?_, by simpa using he⟩
    exact List.pairwise_map.mpr (hpw.imp fun h => Nat.ne_of_lt h)

theorem pairwise_mem_pos_ne (pos : Nat → Nat) (a b : Nat) (hab : a ≠ b) :
    ∀ (d : List Nat), List.Pairwise (fun x y => pos x < pos y) d →
      a ∈ d → b ∈ d → pos a ≠ pos b := by
  intro d
  induction d with
  | nil => intro _ ha; simp at ha
  | cons x xs ih =>
    intro hp ha hb
    rw [List.pairwise_cons] at hp
    by_cases hxa : x = a
    · have hbxs : b ∈ xs := by
        rcases List.mem_cons.mp hb with h | h
        · exact absurd (h.trans hxa).symm hab
        · exact h
      have hlt := hp.1 b hbxs
      rw [hxa] at hlt
      exact Nat.ne_of_lt hlt
    · by_cases hxb : x = b
      · have haxs : a ∈ xs := by
          rcases List.mem_cons.mp ha with h | h
          · exact absurd (h.trans hxb) hab
          · exact h
        have hlt := hp.1 a haxs
        rw [hxb] at hlt
        exact (Nat.ne_of_lt hlt).symm
      · have haxs : a ∈ xs := by
          rcases List.mem_cons.mp ha with h | h
          · exact absurd h.symm hxa
          · exact h
        have hbxs : b ∈ xs := by
          rcases List.mem_cons.mp hb with h | h
          · exact absurd h.symm hxb
          · exact h
        exact ih hp.2 haxs hbxs

theorem scanDocument_sorted (pos : Nat → Nat) (sym : NodeCompOp) (a b : Nat)
    (hab : a ≠ b) :
    ∀ (d : List Nat), List.Pairwise (fun x y => pos x < pos y) d →
      a ∈ d → b ∈ d →
      scanDocument sym a b d =
        some (decide ((pos a < pos b) ↔ (sym = NodeCompOp.before))) := by
  intro d
  induction d with
  | nil => intro _ ha; simp at ha
  | cons x xs ih =>
    intro hp ha hb
    rw [List.pairwise_cons] at hp
    by_cases hxa : x = a
    · have hbxs : b ∈ xs := by
        rcases List.mem_cons.mp hb with h | h
        · exact absurd (h.trans hxa).symm hab
        · exact h
      have hlt := hp.1 b hbxs
      rw [hxa] at hlt
      rw [scanDocument, if_pos hxa]
      congr 1
      rw [decide_eq_decide]
      simp [hlt]
    · by_cases hxb : x = b
      · have haxs : a ∈ xs := by
          rcases List.mem_cons.mp ha with h | h
          · exact absurd (h.trans hxb) hab
          · exact h
        have hlt := hp.1 a haxs
        rw [hxb] at hlt
        have hnlt : ¬ pos a < pos b := Nat.lt_asymm hlt
        rw [scanDocument, if_neg hxa, if_pos hxb]
        congr 1
        rw [decide_eq_decide]
        simp [hnlt]
      · have haxs : a ∈ xs := by
          rcases List.mem_cons.mp ha with h | h
          · exact absurd h.symm hxa
          · exact h
        have hbxs : b ∈ xs := by
          rcases List.mem_cons.mp hb with h | h
          · exact absurd h.symm hxb
          · exact h
        rw [scanDocument, if_neg hxa, if_neg hxb]
        exact ih hp.2 haxs hbxs

/-- C5: for operands selecting exactly one node each of the same tree
(both occur in the document-order node sequence, whose positions strictly
increase), is evaluates to whether the operands are the same node
instance, << to whether the left node's position is smaller, and >> to
whether it is greater. -/
theorem node_comparison_spec (pos : Nat → Nat) (d : List Nat) (a b : Nat)
    (hsorted : List.Pairwise (fun x y => pos x < pos y) d)
    (ha : a ∈ d) (hb : b ∈ d) :
    evaluate_node_comparison .identity [.node a] [.node b] [d] =
      .ok (some (decide (a = b))) ∧
    evaluate_node_comparison .before [.node a] [.node b] [d] =
      .ok (some (decide (pos a < pos b))) ∧
    evaluate_node_comparison .after [.node a] [.node b] [d] =
      .ok (some (decide (pos b < pos a))) := by
  refine ⟨rfl, ?_, ?_⟩
  · by_cases hab : a = b
    · subst hab
      simp [evaluate_node_comparison]
    · have hscan := scanDocument_sorted pos .before a b hab d hsorted ha hb
      have hsd : scanDocuments NodeCompOp.before a b [d] =
          .ok (decide ((pos a < pos b) ↔ (NodeCompOp.before = NodeCompOp.before))) := by
        simp [scanDocuments, hscan]
      have hdec : decide ((pos a < pos b) ↔ (NodeCompOp.before = NodeCompOp.before)) =
          decide (pos a < pos b) := by
        rw [decide_eq_decide]
        simp
      simp [evaluate_node_comparison, hab, hsd, hdec]
  · by_cases hab : a = b
    · subst hab
      simp [evaluate_node_comparison]
    · have hscan := scanDocument_sorted pos .after a b hab d hsorted ha hb
      have hne := pairwise_mem_pos_ne pos a b hab d hsorted ha hb
      have hsd : scanDocuments NodeCompOp.after a b [d] =
          .ok (decide ((pos a < pos b) ↔ (NodeCompOp.after = NodeCompOp.before))) := by
        simp [scanDocuments, hscan]
      have hdec : decide ((pos a < pos b) ↔ (NodeCompOp.after = NodeCompOp.before)) =
          decide (pos b < pos a) := by
        rw [decide_eq_decide]
        have hfalse : ¬ (NodeCompOp.after = NodeCompOp.before) := by decide
        constructor
        · intro h
          have h2 : ¬ pos a < pos b := fun hlt => hfalse (h.mp hlt)
          omega
        · intro h
          constructor
          · intro hlt
            omega
          · intro hf
            exact absurd hf hfalse
      simp [evaluate_node_comparison, hab, hsd, hdec]
      omega

/-- C5 witness: the theorem applied to the two-node document [0, 1] with
the identity position assignment. -/
theorem node_comparison_spec_witness :
    List.Pairwise (fun x y => (fun n : Nat => n) x < (fun n : Nat => n) y) [0, 1] ∧
    evaluate_node_comparison .before [.node 0] [.node 1] [[0, 1]] = .ok (some true) ∧
    evaluate_node_comparison .after [.node 0] [.node 1] [[0, 1]] = .ok (some false) ∧
    evaluate_node_comparison .identity [.node 0] [.node 1] [[0, 1]] = .ok (some false) := by
  have h := node_comparison_spec (fun n => n) [0, 1] 0 1 (by decide) (by decide) (by decide)
  exact ⟨by decide, by simpa using h.2.1, by simpa using h.2.2, by simpa using h.1⟩

theorem mem_filterMap_itemNodeId (s : List ItemT) (n : Nat) :
    n ∈ s.filterMap itemNodeId ↔ ItemT.node n ∈ s := by
  rw [List.mem_filterMap]
  constructor
  · rintro ⟨a, ha, hf⟩
    cases a with
    | node m =>
      simp only [itemNodeId, Option.some.injEq] at hf
      subst hf
      exact ha
    | atomic v => simp [itemNodeId] at hf
  · intro h
    exact ⟨ItemT.node n, h, rfl⟩

theorem sortedByPos_spec (pos : Nat → Nat) (hinj : Function.Injective pos)
    (fl : List Nat) (hnd : fl.Nodup) :
    List.Pairwise (fun x y => pos x < pos y)
      (fl.insertionSort (fun x y => pos x ≤ pos y)) ∧
    (fl.insertionSort (fun x y => pos x ≤ pos y)).Nodup ∧
    (∀ n, n ∈ fl.insertionSort (fun x y => pos x ≤ pos y) ↔ n ∈ fl) := by
  haveI : IsTotal Nat (fun x y => pos x ≤ pos y) := ⟨fun a b => Nat.le_total _ _⟩
  haveI : IsTrans Nat (fun x y => pos x ≤ pos y) :=
    ⟨fun a b c hab hbc => Nat.le_trans hab hbc⟩
  have hsorted := List.sorted_insertionSort (fun x y => pos x ≤ pos y) fl
  have hperm := List.perm_insertionSort (fun x y => pos x ≤ pos y) fl
  have hnd2 : (fl.insertionSort (fun x y => pos x ≤ pos y)).Nodup :=
    hperm.nodup_iff.mpr hnd
  refine ⟨?_, hnd2, fun n => hperm.mem_iff⟩
  have hand := List.Pairwise.and hsorted hnd2
  exact hand.imp fun h => Nat.lt_of_le_of_ne h.1 (fun e => h.2 (hinj e))

/-- C8: with operand sequences consisting only of nodes of one tree
(injective positions), intersect yields the set intersection and except
the set difference, each as a duplicate-free sequence strictly sorted by
document-order position; an operand containing a non-node item raises
XPTY0004. -/
theorem select_intersect_except_spec (pos : Nat → Nat)
    (hinj : Function.Injective pos) (s1 s2 : List ItemT)
    (h1 : s1.any isNonNodeItem = false) (h2 : s2.any isNonNodeItem = false) :
    (∃ res, select_intersect_except false pos s1 s2 = .ok res ∧
      List.Pairwise (fun x y => pos x < pos y) res ∧ res.Nodup ∧
      (∀ n, n ∈ res ↔ (ItemT.node n ∈ s1 ∧ ItemT.node n ∈ s2))) ∧
    (∃ res, select_intersect_except true pos s1 s2 = .ok res ∧
      List.Pairwise (fun x y => pos x < pos y) res ∧ res.Nodup ∧
      (∀ n, n ∈ res ↔ (ItemT.node n ∈ s1 ∧ ItemT.node n ∉ s2))) ∧
    (∀ (e : Bool) (t1 t2 : List ItemT),
      (t1.any isNonNodeItem || t2.any isNonNodeItem) = true →
      select_intersect_except e pos t1 t2 = .error .XPTY0004) := by
  have hauxnd : ((s1.filterMap itemNodeId).dedup).Nodup := List.nodup_dedup _
  refine ⟨?_, ?_, ?_⟩
  · refine ⟨((s1.filterMap itemNodeId).dedup.filter
      (fun n => decide (n ∈ (s2.filterMap itemNodeId).dedup))).insertionSort
      (fun x y => pos x ≤ pos y), ?_, ?_⟩
    · simp [select_intersect_except, h1, h2]
    · have hfnd := hauxnd.filter
        (fun n => decide (n ∈ (s2.filterMap itemNodeId).dedup))
      have hs := sortedByPos_spec pos hinj _ hfnd
      refine ⟨hs.1, hs.2.1, fun n => ?_⟩
      rw [hs.2.2 n, List.mem_filter, List.mem_dedup, mem_filterMap_itemNodeId]
      simp only [List.mem_dedup, decide_eq_true_eq]
      exact and_congr_right fun _ => mem_filterMap_itemNodeId s2 n
  · refine ⟨((s1.filterMap itemNodeId).dedup.filter
      (fun n => decide (n ∉ (s2.filterMap itemNodeId).dedup))).insertionSort
      (fun x y => pos x ≤ pos y), ?_, ?_⟩
    · simp [select_intersect_except, h1, h2]
    · have hfnd := hauxnd.filter
        (fun n => decide (n ∉ (s2.filterMap itemNodeId).dedup))
      have hs := sortedByPos_spec pos hinj _ hfnd
      refine ⟨hs.1, hs.2.1, fun n => ?_⟩
      rw [hs.2.2 n, List.mem_filter, List.mem_dedup, mem_filterMap_itemNodeId]
      simp only [List.mem_dedup, decide_eq_true_eq]
      refine and_congr_right fun _ => ?_
      rw [mem_filterMap_itemNodeId]
  · intro e t1 t2 h
    simp [select_intersect_except, h]

theorem iterProductRun_eq {α : Type} (full : List (List α))
    (stack : List (α × List α)) (cur : List α) :
    iterProductRun full stack cur =
      (nestedProduct (cur :: full.drop (stack.length + 1))).map
        (fun t => stack.reverse.map Prod.fst ++ t) ++ iterProductCont full stack := by
  induction stack, cur using iterProductRun.induct full with
  | case1 =>
    rw [iterProductRun.eq_def]
    simp [nestedProduct, iterProductCont]
  | case2 v s stk ih =>
    rw [iterProductRun.eq_def]
    dsimp only
    rw [ih]
    simp [nestedProduct, iterProductCont]
  | case3 stack v rest hle ih =>
    rw [iterProductRun.eq_def]
    dsimp only
    rw [if_pos hle, ih]
    rw [List.drop_eq_nil_of_le hle]
    simp [nestedProduct]
  | case4 stack v rest hlt ih =>
    rw [iterProductRun.eq_def]
    dsimp only
    rw [if_neg hlt, ih]
    have hk : stack.length + 1 < full.length := Nat.lt_of_not_le hlt
    have hgetD : full.getD (stack.length + 1) [] = full.get ⟨stack.length + 1, hk⟩ := by
      simp [List.getD_eq_getElem?_getD, List.getElem?_eq_getElem hk]
    have hdrop : full.drop (stack.length + 1) =
        full.get ⟨stack.length + 1, hk⟩ :: full.drop (stack.length + 2) := by
      rw [List.drop_eq_getElem_cons hk]
      rfl
    have hcomp : ((fun t => stack.reverse.map Prod.fst ++ t) ∘ (fun t => v :: t)) =
        fun t => (stack.reverse.map Prod.fst ++ [v]) ++ t := by
      funext t
      simp
    rw [hgetD, hdrop]
    simp only [iterProductCont, nestedProduct, List.length_cons, List.reverse_cons,
      List.map_append, List.map_map, hcomp, List.append_assoc]
    rw [hdrop]
    simp [nestedProduct, List.append_assoc]

theorem iter_product_eq {α : Type} (ls : List (List α)) (h : ls ≠ []) :
    iter_product ls = nestedProduct ls := by
  match ls with
  | l :: rest =>
    show iterProductRun (l :: rest) [] l = _
    rw [iterProductRun_eq]
    simp [iterProductCont]

theorem select_for_expression_eq {α β : Type} (varnames : List String)
    (selectors : List (List α)) (vars0 : List (String × α))
    (body : List (String × α) → List β) (h : selectors ≠ []) :
    select_for_expression varnames selectors vars0 body =
      (nestedProduct selectors).flatMap
        (fun rs => body (dict_update vars0 (varnames.zip rs))) := by
  unfold select_for_expression
  rw [iter_product_eq selectors h]

/-- C7: a for expression with N variable clauses iterates its independent
in-sequences in nested-loop (odometer) order with the last variable
varying fastest — iter_product agrees with the nested-loop product, and
the for expression binds each produced tuple to its variable names before
evaluating the return body over those bindings — and in particular
evaluating for two clauses over (1,2) with body the product of the bound
variables yields exactly [1, 2, 2, 4]. -/
theorem for_expression_nested_loop :
    (∀ (α : Type) (ls : List (List α)), ls ≠ [] →
      iter_product ls = nestedProduct ls) ∧
    (∀ (α β : Type) (varnames : List String) (selectors : List (List α))
      (vars0 : List (String × α)) (body : List (String × α) → List β),
      selectors ≠ [] →
      select_for_expression varnames selectors vars0 body =
        (nestedProduct selectors).flatMap
          (fun rs => body (dict_update vars0 (varnames.zip rs)))) ∧
    select_for_expression ["x", "y"] [[1, 2], [1, 2]] []
      (fun vs => [((vs.lookup "x").getD 0) * ((vs.lookup "y").getD 0)]) =
      [(1 : Int), 2, 2, 4] := by
  refine ⟨fun α ls h => iter_product_eq ls h,
    fun α β varnames selectors vars0 body h =>
      select_for_expression_eq varnames selectors vars0 body h, ?_⟩
  rw [select_for_expression_eq _ _ _ _ (by simp)]
  decide

/-- C7 witness: the odometer equivalence applied to the concrete
in-sequences of the claim's example. -/
theorem for_expression_nested_loop_witness :
    ([[1, 2], [1, 2]] : List (List Int)) ≠ [] ∧
    iter_product ([[1, 2], [1, 2]] : List (List Int)) =
      nestedProduct [[1, 2], [1, 2]] :=
  ⟨by simp, for_expression_nested_loop.1 Int [[1, 2], [1, 2]] (by simp)⟩

/-- C8 witness: the set-operator theorem applied to concrete node
sequences, plus the type-error branch at a non-node operand. -/
theorem select_intersect_except_spec_witness :
    Function.Injective (fun n : Nat => n) ∧
    ([ItemT.node 2, ItemT.node 1].any isNonNodeItem = false) ∧
    (∃ res, select_intersect_except false (fun n => n)
        [ItemT.node 2, ItemT.node 1] [ItemT.node 1, ItemT.node 3] = .ok res ∧
      List.Pairwise (fun x y => (fun n : Nat => n) x < (fun n : Nat => n) y) res ∧
      res.Nodup ∧
      (∀ n, n ∈ res ↔ (ItemT.node n ∈ [ItemT.node 2, ItemT.node 1] ∧
        ItemT.node n ∈ [ItemT.node 1, ItemT.node 3]))) ∧
    select_intersect_except true (fun n => n) [ItemT.atomic 7] [] =
      .error .XPTY0004 := by
  have h := select_intersect_except_spec (fun n => n) (fun a b hh => hh)
    [ItemT.node 2, ItemT.node 1] [ItemT.node 1, ItemT.node 3] (by decide) (by decide)
  exact ⟨fun a b hh => hh, by decide, h.1, h.2.2 true [ItemT.atomic 7] [] (by decide)⟩
